import Mathlib

/-!
Verification of the normalization / dedupe / multi-index engine of
`src/elixir_training_mcp/data_store.py` (ELIXIR training-metadata knowledge
graph tooling), as a shallow embedding in Lean 4.

Modelling conventions:
* Python strings are Lean `String`; `str.strip()` is `pyStrip` (ASCII
  whitespace at both ends) and `str.lower()` is `pyLower` (ASCII case fold,
  the only case the data exercises).
* Python `datetime` values are modelled as integers denoting UTC instants
  (only the order on datetimes is ever used by the code); `None` is `Option`.
* Python `dict` (insertion ordered) is an association list; `defaultdict`
  of lists together with `_append_unique` is `bucketInsert` / `bucketGet`.
* The rdflib graph traversal is an external collaborator (spec section 6):
  a per-source raw graph is modelled at the extraction boundary as the
  sequence of `TrainingResource` candidates that `_build_training_resource`
  produces from it, in node-iteration order, and a course-instance sub-node
  as the tuple of already-extracted field values that
  `_parse_course_instance` computes before its informativeness check.
* The filesystem is modelled by making each declared source carry an
  `Option` payload: `none` models a missing backing file.
-/

namespace DataStore

/-- ASCII whitespace test matching the characters Python `str.strip()`
removes (space, tab, newline, carriage return, vertical tab, form feed). -/
def pyIsSpace (c : Char) : Bool :=
  c.toNat = 32 ∨ c.toNat = 9 ∨ c.toNat = 10 ∨ c.toNat = 13 ∨ c.toNat = 11 ∨ c.toNat = 12

/-- Strip ASCII whitespace from both ends of a character list. -/
def stripChars (l : List Char) : List Char :=
  ((l.dropWhile pyIsSpace).reverse.dropWhile pyIsSpace).reverse

/-- Model of Python `str.strip()`. -/
def pyStrip (s : String) : String :=
  String.mk (stripChars s.data)

/-- ASCII lower-casing of one character, the fragment of Python `str.lower()`
the harvested data exercises. -/
def pyLowerChar (c : Char) : Char :=
  if 65 ≤ c.toNat ∧ c.toNat ≤ 90 then Char.ofNat (c.toNat + 32) else c

/-- Model of Python `str.lower()`. -/
def pyLower (s : String) : String :=
  String.mk (s.data.map pyLowerChar)

/-- Model of the query/key normalization `value.strip().lower()` used
throughout the index code. -/
def stripLower (s : String) : String :=
  pyLower (pyStrip s)

/-- Test for the character class of `TOKEN_PATTERN = re.compile(r"[A-Za-z0-9]+")`. -/
def isTokenChar (c : Char) : Bool :=
  (65 ≤ c.toNat ∧ c.toNat ≤ 90) ∨ (97 ≤ c.toNat ∧ c.toNat ≤ 122) ∨ (48 ≤ c.toNat ∧ c.toNat ≤ 57)

/-- Split a character list into the maximal runs matching `TOKEN_PATTERN`;
`acc` holds the current run reversed. -/
def tokenRuns : List Char → List Char → List (List Char)
  | [], acc => if acc.isEmpty then [] else [acc.reverse]
  | c :: rest, acc =>
    if isTokenChar c then tokenRuns rest (c :: acc)
    else if acc.isEmpty then tokenRuns rest []
    else acc.reverse :: tokenRuns rest []

/-- Model of `_tokenize`: lower-case, then list all maximal alphanumeric runs. -/
def pyTokenize (s : String) : List String :=
  (tokenRuns (pyLower s).data []).map String.mk

/-- Characters after the last slash of a list, the model of
`topic.rsplit("/", 1)[-1]` on a string that contains a slash. -/
def afterLastSlash (l : List Char) : List Char :=
  l.foldl (fun acc c => if c.toNat = 47 then [] else acc ++ [c]) []

/-- Model of `topic.rsplit("/", 1)[-1]`. -/
def lastSegment (s : String) : String :=
  String.mk (afterLastSlash s.data)

/-- Test for `"/" in topic`. -/
def containsSlash (s : String) : Bool :=
  s.data.any (fun c => c.toNat = 47)

/-- Python truthiness of an optional string (`None` and the empty string are
falsy). -/
def truthyStr (o : Option String) : Bool :=
  match o with
  | none => false
  | some s => !(s = "")

/-- Python truthiness of an optional bool (`None` and `False` are falsy). -/
def truthyBool (o : Option Bool) : Bool :=
  match o with
  | none => false
  | some b => b

/-- Python truthiness of an optional integer (`None` and `0` are falsy);
used for `capacity`. -/
def truthyInt (o : Option Int) : Bool :=
  match o with
  | none => false
  | some n => !(n = 0)

/-- Insertion-ordered bucket map: model of `defaultdict(list)` whose buckets
are only ever extended through `_append_unique`. -/
def bucketInsert {K : Type} [DecidableEq K] (m : List (K × List String)) (k : K) (v : String) :
    List (K × List String) :=
  match m with
  | [] => [(k, [v])]
  | (k', vs) :: rest =>
    if k' = k then (k', if v ∈ vs then vs else vs ++ [v]) :: rest
    else (k', vs) :: bucketInsert rest k v

/-- Bucket lookup: model of `map.get(key, ())` on the bucket map. -/
def bucketGet {K : Type} [DecidableEq K] (m : List (K × List String)) (k : K) : List String :=
  match m with
  | [] => []
  | (k', vs) :: rest => if k' = k then vs else bucketGet rest k

/-- Lookup in an insertion-ordered association list, model of `dict.get`. -/
def assocGet {K V : Type} [DecidableEq K] (m : List (K × V)) (k : K) : Option V :=
  match m with
  | [] => none
  | (k', v) :: rest => if k' = k then some v else assocGet rest k

/-- Update-or-append in an insertion-ordered association list, model of
`d[k] = v` on a Python dict. -/
def assocSet {K V : Type} [DecidableEq K] (m : List (K × V)) (k : K) (v : V) : List (K × V) :=
  match m with
  | [] => [(k, v)]
  | (k', v') :: rest => if k' = k then (k, v) :: rest else (k', v') :: assocSet rest k v

/-- Modelled from the spec: `Organization` (spec section 3; its defining
module `data_models.py` is not among the sources) — a required non-empty
name and an optional url. -/
structure Organization where
  name : String
  url : Option String
deriving DecidableEq, Repr

/-- Modelled from the spec: `CourseInstance` (spec section 3; the defining
module `data_models.py` is not among the sources). Parsed datetimes are
modelled as integer UTC instants alongside the preserved raw strings;
latitude and longitude carry no claim-relevant structure and are kept as
optional integers. -/
structure CourseInstance where
  start_date : Option Int
  start_raw : Option String
  end_date : Option Int
  end_raw : Option String
  mode : Option String
  capacity : Option Int
  country : Option String
  locality : Option String
  postal_code : Option String
  street_address : Option String
  latitude : Option Int
  longitude : Option Int
  funders : List Organization
  organizers : List Organization
deriving DecidableEq, Repr

/-- Modelled from the spec: the canonical `TrainingResource` record (spec
section 3; the defining module `data_models.py` is not among the sources).
The fields are exactly the ones `data_store.py` reads and constructs;
set-valued fields are kept as lists in a fixed iteration order. -/
structure TrainingResource where
  uri : String
  source : String
  types : List String
  name : Option String
  description : Option String
  abstract : Option String
  headline : Option String
  url : Option String
  provider : Option Organization
  keywords : List String
  topics : List String
  identifiers : List String
  authors : List String
  contributors : List String
  prerequisites : List String
  teaches : List String
  learning_resource_types : List String
  educational_levels : List String
  language : Option String
  interactivity_type : Option String
  access_modes : List String
  access_mode_sufficient : List String
  accessibility_controls : List String
  accessibility_features : List String
  accessibility_summary : Option String
  audience_roles : List String
  license_url : Option String
  is_accessible_for_free : Option Bool
  is_family_friendly : Option Bool
  creative_work_status : Option String
  version : Option String
  date_published : Option Int
  date_published_raw : Option String
  date_modified : Option Int
  date_modified_raw : Option String
  course_instances : List CourseInstance
deriving DecidableEq, Repr

/-- An entirely empty resource, the base for building concrete examples. -/
def emptyResource (uri source : String) : TrainingResource where
  uri := uri
  source := source
  types := []
  name := none
  description := none
  abstract := none
  headline := none
  url := none
  provider := none
  keywords := []
  topics := []
  identifiers := []
  authors := []
  contributors := []
  prerequisites := []
  teaches := []
  learning_resource_types := []
  educational_levels := []
  language := none
  interactivity_type := none
  access_modes := []
  access_mode_sufficient := []
  accessibility_controls := []
  accessibility_features := []
  accessibility_summary := none
  audience_roles := []
  license_url := none
  is_accessible_for_free := none
  is_family_friendly := none
  creative_work_status := none
  version := none
  date_published := none
  date_published_raw := none
  date_modified := none
  date_modified_raw := none
  course_instances := []

/-- Truthiness of the 16 scalar fields of `_resource_quality`, in the order
the Python list literal enumerates them (`getattr` followed by `if value:`). -/
def scalarTruthy (r : TrainingResource) : List Bool :=
  [ truthyStr r.name
  , truthyStr r.description
  , truthyStr r.abstract
  , truthyStr r.headline
  , truthyStr r.url
  , r.provider.isSome
  , truthyStr r.language
  , truthyStr r.interactivity_type
  , truthyStr r.license_url
  , truthyStr r.accessibility_summary
  , truthyBool r.is_accessible_for_free
  , truthyBool r.is_family_friendly
  , truthyStr r.creative_work_status
  , truthyStr r.version
  , r.date_published.isSome
  , r.date_modified.isSome ]

/-- Truthiness of the 15 collection fields of `_resource_quality`, in the
order the Python list literal enumerates them (`if value and len(value) > 0:`,
which for these tuple/frozenset fields is plain non-emptiness). -/
def collectionTruthy (r : TrainingResource) : List Bool :=
  [ !r.keywords.isEmpty
  , !r.topics.isEmpty
  , !r.identifiers.isEmpty
  , !r.authors.isEmpty
  , !r.contributors.isEmpty
  , !r.prerequisites.isEmpty
  , !r.teaches.isEmpty
  , !r.learning_resource_types.isEmpty
  , !r.educational_levels.isEmpty
  , !r.access_modes.isEmpty
  , !r.access_mode_sufficient.isEmpty
  , !r.accessibility_controls.isEmpty
  , !r.accessibility_features.isEmpty
  , !r.audience_roles.isEmpty
  , !r.course_instances.isEmpty ]

/-- Model of `_resource_quality`: one running score, incremented once per
truthy scalar field and once per non-empty collection field. -/
def resource_quality (r : TrainingResource) : Nat :=
  let score := (scalarTruthy r).foldl (fun s v => if v then s + 1 else s) 0
  (collectionTruthy r).foldl (fun s v => if v then s + 1 else s) score

/-- Model of `_is_richer_resource`. -/
def is_richer_resource (candidate current : TrainingResource) : Bool :=
  resource_quality current < resource_quality candidate

/-- A course-instance sub-node at the `_parse_course_instance` boundary: the
tuple of field values the function has extracted from the graph right before
its informativeness check (the rdflib traversal itself is external). -/
structure RawInstance where
  start_dt : Option Int
  start_raw : Option String
  end_dt : Option Int
  end_raw : Option String
  mode : Option String
  capacity : Option Int
  country : Option String
  locality : Option String
  postal_code : Option String
  street_address : Option String
  latitude : Option Int
  longitude : Option Int
  funders : List Organization
  organizers : List Organization
deriving DecidableEq, Repr

/-- Model of the guard
`any([start_dt, start_raw, end_dt, end_raw, mode, capacity, country, locality])`
in `_parse_course_instance` (Python truthiness per field). -/
def rawInformative (n : RawInstance) : Bool :=
  n.start_dt.isSome || truthyStr n.start_raw || n.end_dt.isSome || truthyStr n.end_raw ||
    truthyStr n.mode || truthyInt n.capacity || truthyStr n.country || truthyStr n.locality

/-- Model of `_parse_course_instance`: discard a sub-node with no truthy
informative field, otherwise build the `CourseInstance` from the extracted
values. -/
def parse_course_instance (n : RawInstance) : Option CourseInstance :=
  if rawInformative n then
    some
      { start_date := n.start_dt
        start_raw := n.start_raw
        end_date := n.end_dt
        end_raw := n.end_raw
        mode := n.mode
        capacity := n.capacity
        country := n.country
        locality := n.locality
        postal_code := n.postal_code
        street_address := n.street_address
        latitude := n.latitude
        longitude := n.longitude
        funders := n.funders
        organizers := n.organizers }
  else none

/-- Model of `_collect_course_instances`: loop over the `hasCourseInstance`
sub-nodes in graph order, appending each successfully parsed instance. -/
def collect_course_instances (nodes : List RawInstance) : List CourseInstance :=
  nodes.foldl
    (fun instances node =>
      match parse_course_instance node with
      | some inst => instances ++ [inst]
      | none => instances)
    []

/-- Model of slicing `results[:limit]` guarded by `if limit is not None`. -/
def applyLimit (limit : Option Nat) (results : List String) : List String :=
  match limit with
  | some l => results.take l
  | none => results

/-- Wrap an optional scalar text field the way the `_collect_keyword_tokens`
loop does: falsy values (absent or empty) contribute no text. -/
def textIfTruthy (o : Option String) : List String :=
  match o with
  | none => []
  | some s => if s = "" then [] else [s]

/-- Model of `_collect_keyword_tokens`: gather the six scalar texts and the
five token-bearing collections, tokenize each, and return the set of tokens
(as a first-seen-ordered list; Python uses an unordered set, and no claim
depends on the within-resource order). -/
def collect_keyword_tokens (r : TrainingResource) : List String :=
  let texts :=
    textIfTruthy r.name ++ textIfTruthy r.description ++ textIfTruthy r.abstract ++
      textIfTruthy r.headline ++ textIfTruthy r.interactivity_type ++ textIfTruthy r.language ++
      r.keywords ++ r.learning_resource_types ++ r.educational_levels ++
      r.prerequisites ++ r.teaches
  (texts.foldl (fun acc t => acc ++ pyTokenize t) []).foldl
    (fun acc t => if t ∈ acc then acc else acc ++ [t]) []

/-- Model of `KeywordIndex`: token to insertion-ordered resource list. -/
structure KeywordIndex where
  token_to_resources : List (String × List String)
deriving Repr

/-- Model of `KeywordIndex.from_resources`. -/
def KeywordIndex.from_resources (resources : List (String × TrainingResource)) : KeywordIndex :=
  ⟨resources.foldl
    (fun token_map p =>
      (collect_keyword_tokens p.2).foldl (fun m token => bucketInsert m token p.1) token_map)
    []⟩

/-- Inner loop of `KeywordIndex.lookup` over one token's bucket: append the
unseen uris, returning early (flag `true`) once the limit is reached. -/
def kwAddBucket (limit : Option Nat) : List String → List String → List String × Bool
  | seen, [] => (seen, false)
  | seen, uri :: rest =>
    if uri ∈ seen then kwAddBucket limit seen rest
    else
      match limit with
      | some l =>
        if l ≤ (seen ++ [uri]).length then (seen ++ [uri], true)
        else kwAddBucket limit (seen ++ [uri]) rest
      | none => kwAddBucket limit (seen ++ [uri]) rest

/-- Outer loop of `KeywordIndex.lookup` over the query tokens. -/
def kwScanTokens (idx : KeywordIndex) (limit : Option Nat) :
    List String → List String → List String
  | seen, [] => seen
  | seen, token :: rest =>
    match kwAddBucket limit seen (bucketGet idx.token_to_resources token) with
    | (seen', true) => seen'
    | (seen', false) => kwScanTokens idx limit seen' rest

/-- Model of `KeywordIndex.lookup`. -/
def KeywordIndex.lookup (idx : KeywordIndex) (query : String) (limit : Option Nat) :
    List String :=
  kwScanTokens idx limit [] (pyTokenize query)

/-- Model of `ProviderIndex`. -/
structure ProviderIndex where
  provider_to_resources : List (String × List String)
deriving Repr

/-- Model of `ProviderIndex.from_resources`: key the resources on the
stripped, lower-cased provider name when a provider with a truthy name is
present. -/
def ProviderIndex.from_resources (resources : List (String × TrainingResource)) : ProviderIndex :=
  ⟨resources.foldl
    (fun provider_map p =>
      match p.2.provider with
      | some org =>
        if org.name = "" then provider_map
        else bucketInsert provider_map (stripLower org.name) p.1
      | none => provider_map)
    []⟩

/-- Model of `ProviderIndex.lookup`. -/
def ProviderIndex.lookup (idx : ProviderIndex) (provider_name : String) (limit : Option Nat) :
    List String :=
  applyLimit limit (bucketGet idx.provider_to_resources (stripLower provider_name))

/-- Model of `LocationIndex`: the country map and the (country, city) map. -/
structure LocationIndex where
  country_map : List (String × List String)
  country_city_map : List ((String × String) × List String)
deriving Repr

/-- One step of the `LocationIndex.from_resources` inner loop: skip an
instance without a truthy country; otherwise append to the country bucket
and, when the locality is truthy, to the (country, city) bucket. -/
def locAddInstance (maps : LocationIndex) (uri : String) (inst : CourseInstance) :
    LocationIndex :=
  match inst.country with
  | none => maps
  | some c =>
    if c = "" then maps
    else
      let country_key := stripLower c
      let country_map' := bucketInsert maps.country_map country_key uri
      match inst.locality with
      | some l =>
        if l = "" then ⟨country_map', maps.country_city_map⟩
        else ⟨country_map', bucketInsert maps.country_city_map (country_key, stripLower l) uri⟩
      | none => ⟨country_map', maps.country_city_map⟩

/-- Model of `LocationIndex.from_resources`. -/
def LocationIndex.from_resources (resources : List (String × TrainingResource)) : LocationIndex :=
  resources.foldl
    (fun maps p => p.2.course_instances.foldl (fun maps inst => locAddInstance maps p.1 inst) maps)
    ⟨[], []⟩

/-- Model of `LocationIndex.lookup` (`if city:` is Python truthiness, so an
absent or empty city falls back to the country map). -/
def LocationIndex.lookup (idx : LocationIndex) (country : String) (city : Option String)
    (limit : Option Nat) : List String :=
  let country_key := stripLower country
  let results :=
    match city with
    | some c =>
      if c = "" then bucketGet idx.country_map country_key
      else bucketGet idx.country_city_map (country_key, stripLower c)
    | none => bucketGet idx.country_map country_key
  applyLimit limit results

/-- Model of `CourseSchedule`: one dated course instance of a resource. -/
structure CourseSchedule where
  resource_uri : String
  start : Int
  endD : Option Int
deriving DecidableEq, Repr

/-- Stable insertion of a schedule into a start-sorted list: the new element
goes after every element whose start is not later, which is where Python's
stable `list.sort(key=lambda s: s.start)` places it. -/
def insertByStart (s : CourseSchedule) : List CourseSchedule → List CourseSchedule
  | [] => [s]
  | t :: rest => if t.start ≤ s.start then t :: insertByStart s rest else s :: t :: rest

/-- Stable sort by start date, the model of `schedules.sort(key=...)`. -/
def sortByStart (l : List CourseSchedule) : List CourseSchedule :=
  l.foldl (fun sorted s => insertByStart s sorted) []

/-- Per-resource schedule collection of `DateIndex.from_resources`: one
entry per course instance that has a parsed start date, in instance order. -/
def schedulesOf (p : String × TrainingResource) : List CourseSchedule :=
  p.2.course_instances.foldl
    (fun acc inst =>
      match inst.start_date with
      | none => acc
      | some sd => acc ++ [⟨p.1, sd, inst.end_date⟩])
    []

/-- Model of `DateIndex`. -/
structure DateIndex where
  schedules : List CourseSchedule
deriving Repr

/-- Model of `DateIndex.from_resources`: collect every dated instance, then
sort ascending by start. -/
def DateIndex.from_resources (resources : List (String × TrainingResource)) : DateIndex :=
  ⟨sortByStart (resources.foldl (fun acc p => acc ++ schedulesOf p) [])⟩

/-- Skip condition of the `DateIndex.lookup` loop for the start bound: with a
start bound, an instance is skipped when its own end (if present) is before
the bound, or, lacking an end, when its start is before the bound. -/
def dateSkipStart (start_dt : Option Int) (s : CourseSchedule) : Bool :=
  match start_dt with
  | some sd =>
    match s.endD with
    | some e => e < sd
    | none => s.start < sd
  | none => false

/-- Skip condition of the `DateIndex.lookup` loop for the end bound. -/
def dateSkipEnd (end_dt : Option Int) (s : CourseSchedule) : Bool :=
  match end_dt with
  | some ed => ed < s.start
  | none => false

/-- The `DateIndex.lookup` loop: filter by the two skip conditions, append
first-seen uris, and break once the optional limit is reached. -/
def dateScan (start_dt end_dt : Option Int) (limit : Option Nat) :
    List String → List CourseSchedule → List String
  | results, [] => results
  | results, s :: rest =>
    if dateSkipStart start_dt s then dateScan start_dt end_dt limit results rest
    else if dateSkipEnd end_dt s then dateScan start_dt end_dt limit results rest
    else if s.resource_uri ∈ results then dateScan start_dt end_dt limit results rest
    else
      match limit with
      | some l =>
        if l ≤ (results ++ [s.resource_uri]).length then results ++ [s.resource_uri]
        else dateScan start_dt end_dt limit (results ++ [s.resource_uri]) rest
      | none => dateScan start_dt end_dt limit (results ++ [s.resource_uri]) rest

/-- Model of `DateIndex.lookup`; the bounds arrive as UTC instants (the
date-to-midnight and timezone normalization of `_normalize_datetime_input`
happens outside this embedding of datetimes as instants). -/
def DateIndex.lookup (idx : DateIndex) (start_dt end_dt : Option Int) (limit : Option Nat) :
    List String :=
  dateScan start_dt end_dt limit [] idx.schedules

/-- Model of `TopicIndex`. -/
structure TopicIndex where
  topic_to_resources : List (String × List String)
deriving Repr

/-- One topic's contribution to `TopicIndex.from_resources`: the stripped
lower-cased full value, and, when the topic contains a slash, the
lower-cased (but not stripped) last path segment as a second key. -/
def topicAdd (topic_map : List (String × List String)) (uri topic : String) :
    List (String × List String) :=
  let with_full := bucketInsert topic_map (stripLower topic) uri
  if containsSlash topic then bucketInsert with_full (pyLower (lastSegment topic)) uri
  else with_full

/-- Model of `TopicIndex.from_resources`. -/
def TopicIndex.from_resources (resources : List (String × TrainingResource)) : TopicIndex :=
  ⟨resources.foldl
    (fun topic_map p => p.2.topics.foldl (fun m topic => topicAdd m p.1 topic) topic_map)
    []⟩

/-- Model of `TopicIndex.lookup`. -/
def TopicIndex.lookup (idx : TopicIndex) (topic : String) (limit : Option Nat) : List String :=
  applyLimit limit (bucketGet idx.topic_to_resources (stripLower topic))

/-- The per-identifier selection step of `_extract_resources_from_graph`:
a candidate for an unseen identifier is inserted; for a seen identifier it
replaces the current entity exactly when `_is_richer_resource` holds. -/
def dedupStep (resources : List (String × TrainingResource)) (resource : TrainingResource) :
    List (String × TrainingResource) :=
  match assocGet resources resource.uri with
  | none => assocSet resources resource.uri resource
  | some existing =>
    if is_richer_resource resource existing then assocSet resources resource.uri resource
    else resources

/-- Model of `_extract_resources_from_graph` at the extraction boundary: the
candidates are the resources built from the graph's nodes in iteration
order (nodes with unresolvable identifiers have already been skipped), and
the per-identifier selection folds `dedupStep` over them. -/
def extract_resources_from_graph (candidates : List TrainingResource) :
    List (String × TrainingResource) :=
  candidates.foldl dedupStep []

/-- Cross-source accumulation step of `load_training_data`: the loop
`for uri, resource in resources.items(): resource_map[uri] = resource`. -/
def mergeOverwrite (resource_map : List (String × TrainingResource))
    (resources : List (String × TrainingResource)) : List (String × TrainingResource) :=
  resources.foldl (fun m p => assocSet m p.1 p.2) resource_map

/-- Model of `TrainingDataStore` (the rdflib `Dataset`, the wall-clock load
timestamp and the derived statistics dictionary are external to the
embedding). -/
structure TrainingDataStore where
  resources_by_uri : List (String × TrainingResource)
  per_source_counts : List (String × Nat)
  source_graphs : List (String × String)
  keyword_index : KeywordIndex
  provider_index : ProviderIndex
  location_index : LocationIndex
  date_index : DateIndex
  topic_index : TopicIndex

/-- The error raised by `load_training_data`: the `FileNotFoundError` for a
declared source whose backing TTL file does not exist. -/
inductive LoadError where
  | fileNotFound (source_key : String)
deriving DecidableEq, Repr

/-- The source loop of `load_training_data`, accumulating the merged
resource map, the per-source counts and the named-graph tags; a source
whose backing file is missing (payload `none`) raises immediately. -/
def loadSources :
    List (String × TrainingResource) × List (String × Nat) × List (String × String) →
    List (String × Option (List TrainingResource)) →
    Except LoadError
      (List (String × TrainingResource) × List (String × Nat) × List (String × String))
  | acc, [] => Except.ok acc
  | _, (source_key, none) :: _ => Except.error (LoadError.fileNotFound source_key)
  | (resource_map, counts, graphs), (source_key, some raw_graph) :: rest =>
    let resources := extract_resources_from_graph raw_graph
    loadSources
      (mergeOverwrite resource_map resources,
        counts ++ [(source_key, resources.length)],
        graphs ++ [(source_key, "urn:graph:" ++ source_key)])
      rest

/-- Model of `load_training_data`: each declared source carries `none` when
its backing file does not exist, and otherwise the raw graph (as the
candidate resources its nodes yield). On success the five indexes are built
from the merged map and the immutable store is returned. -/
def load_training_data (source_paths : List (String × Option (List TrainingResource))) :
    Except LoadError TrainingDataStore :=
  match loadSources ([], [], []) source_paths with
  | Except.error e => Except.error e
  | Except.ok (resource_map, counts, graphs) =>
    Except.ok
      { resources_by_uri := resource_map
        per_source_counts := counts
        source_graphs := graphs
        keyword_index := KeywordIndex.from_resources resource_map
        provider_index := ProviderIndex.from_resources resource_map
        location_index := LocationIndex.from_resources resource_map
        date_index := DateIndex.from_resources resource_map
        topic_index := TopicIndex.from_resources resource_map }

/-! Specification-side notions the claims are stated against. -/

/-- First-seen deduplication of a list, continuing from an accumulator. -/
def dedupFrom (acc : List String) (l : List String) : List String :=
  l.foldl (fun a u => if u ∈ a then a else a ++ [u]) acc

/-- The effective end of a schedule as the spec words it: its own end date
if present, else its start date. -/
def effectiveEnd (s : CourseSchedule) : Int :=
  match s.endD with
  | some e => e
  | none => s.start

/-- The spec's interval-overlaps-range predicate for the date index: the
effective end must not be before the start bound (when given) and the start
must not be after the end bound (when given). -/
def matchesRange (start_dt end_dt : Option Int) (s : CourseSchedule) : Bool :=
  (match start_dt with
   | some b => decide (b ≤ effectiveEnd s)
   | none => true) &&
  (match end_dt with
   | some b => decide (s.start ≤ b)
   | none => true)

/-- The dated instances a resource pair contributes, as a `flatMap` body. -/
def schedOfInstance (uri : String) (inst : CourseInstance) : List CourseSchedule :=
  match inst.start_date with
  | none => []
  | some sd => [⟨uri, sd, inst.end_date⟩]

/-! Generic helper lemmas about the modelled containers. -/

theorem foldl_count_true (l : List Bool) (n : Nat) :
    l.foldl (fun s v => if v then s + 1 else s) n = n + l.count true := by
  induction l generalizing n with
  | nil => simp
  | cons b rest ih =>
    cases b
    · simp [List.count_cons, ih]
    · simp [List.count_cons, ih]
      omega

theorem foldl_preserve {α β : Type} (P : α → Prop) (f : α → β → α) (l : List β) (init : α)
    (h0 : P init) (hstep : ∀ acc b, b ∈ l → P acc → P (f acc b)) : P (l.foldl f init) := by
  induction l generalizing init with
  | nil => exact h0
  | cons b rest ih =>
    exact ih (f init b) (hstep init b (by simp) h0)
      (fun acc c hc hacc => hstep acc c (by simp [hc]) hacc)

theorem bucketGet_bucketInsert {K : Type} [DecidableEq K]
    (m : List (K × List String)) (k : K) (v : String) (k' : K) :
    bucketGet (bucketInsert m k v) k' =
      if k' = k then (if v ∈ bucketGet m k then bucketGet m k else bucketGet m k ++ [v])
      else bucketGet m k' := by
  induction m with
  | nil =>
    by_cases h : k' = k
    · subst h
      simp [bucketInsert, bucketGet]
    · have h2 : ¬ k = k' := fun e => h e.symm
      simp [bucketInsert, bucketGet, h, h2]
  | cons p rest ih =>
    obtain ⟨k0, vs⟩ := p
    by_cases h0 : k0 = k
    · subst h0
      by_cases h' : k' = k0
      · subst h'
        simp [bucketInsert, bucketGet]
      · have h2 : ¬ k0 = k' := fun e => h' e.symm
        simp [bucketInsert, bucketGet, h', h2]
    · by_cases h' : k' = k0
      · subst h'
        simp [bucketInsert, bucketGet, h0]
      · have h2 : ¬ k0 = k' := fun e => h' e.symm
        simp [bucketInsert, bucketGet, h0, h', h2, ih]

theorem mem_bucketGet_bucketInsert {K : Type} [DecidableEq K]
    {m : List (K × List String)} {k : K} {v u : String} {k' : K}
    (h : u ∈ bucketGet (bucketInsert m k v) k') : u ∈ bucketGet m k' ∨ u = v := by
  rw [bucketGet_bucketInsert] at h
  by_cases hk : k' = k
  · subst hk
    by_cases hv : v ∈ bucketGet m k'
    · simp [hv] at h
      exact Or.inl h
    · simp [hv] at h
      rcases h with h | h
      · exact Or.inl h
      · exact Or.inr h
  · simp [hk] at h
    exact Or.inl h

theorem mem_bucketGet_insert_of_mem {K : Type} [DecidableEq K]
    {m : List (K × List String)} {u : String} {k' : K} (k : K) (v : String)
    (h : u ∈ bucketGet m k') : u ∈ bucketGet (bucketInsert m k v) k' := by
  rw [bucketGet_bucketInsert]
  by_cases hk : k' = k
  · subst hk
    by_cases hv : v ∈ bucketGet m k' <;> simp [hv, h]
  · simp [hk, h]

theorem self_mem_bucketGet_insert {K : Type} [DecidableEq K]
    (m : List (K × List String)) (k : K) (v : String) :
    v ∈ bucketGet (bucketInsert m k v) k := by
  rw [bucketGet_bucketInsert]
  by_cases hv : v ∈ bucketGet m k <;> simp [hv]

theorem nodup_bucketGet_bucketInsert {K : Type} [DecidableEq K]
    {m : List (K × List String)} (k : K) (v : String) (k' : K)
    (h : ∀ j, (bucketGet m j).Nodup) : (bucketGet (bucketInsert m k v) k').Nodup := by
  rw [bucketGet_bucketInsert]
  by_cases hk : k' = k
  · by_cases hv : v ∈ bucketGet m k
    · simp [hk, hv]
      exact h k
    · simp [hk, hv]
      exact List.Nodup.append (h k) (by simp) (by simp [hv])
  · simp [hk]
    exact h k'

theorem assocGet_assocSet {K V : Type} [DecidableEq K]
    (m : List (K × V)) (k : K) (v : V) (k' : K) :
    assocGet (assocSet m k v) k' = if k' = k then some v else assocGet m k' := by
  induction m with
  | nil =>
    by_cases h : k' = k
    · subst h
      simp [assocSet, assocGet]
    · have h2 : ¬ k = k' := fun e => h e.symm
      simp [assocSet, assocGet, h, h2]
  | cons p rest ih =>
    obtain ⟨k0, v0⟩ := p
    by_cases h0 : k0 = k
    · subst h0
      by_cases h' : k' = k0
      · subst h'
        simp [assocSet, assocGet]
      · have h2 : ¬ k0 = k' := fun e => h' e.symm
        simp [assocSet, assocGet, h', h2]
    · by_cases h' : k' = k0
      · subst h'
        simp [assocSet, assocGet, h0]
      · have h2 : ¬ k0 = k' := fun e => h' e.symm
        simp [assocSet, assocGet, h0, h', h2, ih]

theorem foldl_append_flatMap {α β : Type} (f : α → List β) (l : List α) (acc : List β) :
    l.foldl (fun a p => a ++ f p) acc = acc ++ l.flatMap f := by
  induction l generalizing acc with
  | nil => simp
  | cons p rest ih => simp [ih]

theorem schedulesOf_eq_flatMap (p : String × TrainingResource) :
    schedulesOf p = p.2.course_instances.flatMap (schedOfInstance p.1) := by
  show p.2.course_instances.foldl _ [] = _
  have h :
      ∀ (l : List CourseInstance) (acc : List CourseSchedule),
        l.foldl
            (fun acc inst =>
              match inst.start_date with
              | none => acc
              | some sd => acc ++ [⟨p.1, sd, inst.end_date⟩])
            acc =
          acc ++ l.flatMap (schedOfInstance p.1) := by
    intro l
    induction l with
    | nil => simp
    | cons inst rest ih =>
      intro acc
      match hsd : inst.start_date with
      | none => simp [ih, schedOfInstance, hsd]
      | some sd => simp [ih, schedOfInstance, hsd]
  exact h _ _

theorem mem_insertByStart (s t : CourseSchedule) (l : List CourseSchedule) :
    t ∈ insertByStart s l ↔ t = s ∨ t ∈ l := by
  induction l with
  | nil => simp [insertByStart]
  | cons a rest ih =>
    by_cases h : a.start ≤ s.start
    · simp only [insertByStart, h, if_true, List.mem_cons, ih]
      try tauto
    · simp only [insertByStart, h, if_false, List.mem_cons]
      try tauto

theorem mem_sortByStart_foldl (l : List CourseSchedule) (acc : List CourseSchedule)
    (t : CourseSchedule) :
    t ∈ l.foldl (fun sorted s => insertByStart s sorted) acc ↔ t ∈ acc ∨ t ∈ l := by
  induction l generalizing acc with
  | nil => simp
  | cons s rest ih =>
    simp [ih, mem_insertByStart]
    tauto

theorem mem_sortByStart (l : List CourseSchedule) (t : CourseSchedule) :
    t ∈ sortByStart l ↔ t ∈ l := by
  simp [sortByStart, mem_sortByStart_foldl]

theorem pairwise_insertByStart (s : CourseSchedule) (l : List CourseSchedule)
    (h : l.Pairwise (fun a b => a.start ≤ b.start)) :
    (insertByStart s l).Pairwise (fun a b => a.start ≤ b.start) := by
  induction l with
  | nil => simp [insertByStart]
  | cons a rest ih =>
    rcases List.pairwise_cons.mp h with ⟨ha, hrest⟩
    by_cases hle : a.start ≤ s.start
    · simp only [insertByStart, hle, if_true]
      refine List.pairwise_cons.mpr ⟨?_, ih hrest⟩
      intro t ht
      rcases (mem_insertByStart s t rest).mp ht with rfl | ht'
      · exact hle
      · exact ha t ht'
    · simp only [insertByStart, hle, if_false]
      refine List.pairwise_cons.mpr ⟨?_, h⟩
      intro t ht
      rcases List.mem_cons.mp ht with rfl | ht'
      · exact le_of_not_le hle
      · exact le_trans (le_of_not_le hle) (ha t ht')

theorem pairwise_sortByStart (l : List CourseSchedule) :
    (sortByStart l).Pairwise (fun a b => a.start ≤ b.start) := by
  have h :
      ∀ (l : List CourseSchedule) (acc : List CourseSchedule),
        acc.Pairwise (fun a b => a.start ≤ b.start) →
          (l.foldl (fun sorted s => insertByStart s sorted) acc).Pairwise
            (fun a b => a.start ≤ b.start) := by
    intro l
    induction l with
    | nil => exact fun acc h => h
    | cons s rest ih => exact fun acc hacc => ih _ (pairwise_insertByStart s acc hacc)
  exact h l [] (by simp)

theorem mem_dedupFrom (acc l : List String) (u : String) :
    u ∈ dedupFrom acc l ↔ u ∈ acc ∨ u ∈ l := by
  induction l generalizing acc with
  | nil => simp [dedupFrom]
  | cons a rest ih =>
    simp only [dedupFrom, List.foldl_cons]
    by_cases h : a ∈ acc
    · rw [if_pos h]
      rw [show List.foldl (fun a u => if u ∈ a then a else a ++ [u]) acc rest = dedupFrom acc rest
        from rfl, ih]
      simp only [List.mem_cons]
      constructor
      · tauto
      · rintro (hu | rfl | hu)
        · exact Or.inl hu
        · exact Or.inl h
        · exact Or.inr hu
    · rw [if_neg h]
      rw [show List.foldl (fun a u => if u ∈ a then a else a ++ [u]) (acc ++ [a]) rest =
        dedupFrom (acc ++ [a]) rest from rfl, ih]
      simp only [List.mem_append, List.mem_cons, List.mem_singleton]
      tauto

theorem nodup_dedupFrom (acc l : List String) (h : acc.Nodup) : (dedupFrom acc l).Nodup := by
  induction l generalizing acc with
  | nil => exact h
  | cons a rest ih =>
    simp only [dedupFrom, List.foldl_cons]
    by_cases ha : a ∈ acc
    · rw [if_pos ha]
      exact ih acc h
    · rw [if_neg ha]
      exact ih (acc ++ [a]) (by simp [List.nodup_append, h, ha])

theorem decide_lt_eq_not_le (a b : Int) : decide (a < b) = !decide (b ≤ a) := by
  by_cases h : a < b
  · simp [h, not_le.mpr h]
  · simp [h, not_lt.mp h]

theorem keep_eq_matchesRange (sb eb : Option Int) (s : CourseSchedule) :
    ((!dateSkipStart sb s) && (!dateSkipEnd eb s)) = matchesRange sb eb s := by
  rcases sb with _ | b1 <;> rcases eb with _ | b2 <;> rcases hs : s.endD with _ | e <;>
    simp [dateSkipStart, dateSkipEnd, matchesRange, effectiveEnd, hs, decide_lt_eq_not_le]

theorem dateScan_none_eq (sb eb : Option Int) (scheds : List CourseSchedule)
    (acc : List String) :
    dateScan sb eb none acc scheds =
      dedupFrom acc
        ((scheds.filter (fun s => (!dateSkipStart sb s) && (!dateSkipEnd eb s))).map
          CourseSchedule.resource_uri) := by
  induction scheds generalizing acc with
  | nil => simp [dateScan, dedupFrom]
  | cons s rest ih =>
    by_cases h1 : dateSkipStart sb s
    · simp [dateScan, h1, ih]
    · by_cases h2 : dateSkipEnd eb s
      · simp [dateScan, h1, h2, ih]
      · by_cases hm : s.resource_uri ∈ acc
        · simp [dateScan, h1, h2, hm, ih, dedupFrom]
        · simp [dateScan, h1, h2, hm, ih, dedupFrom]

theorem mem_dateScan (sb eb : Option Int) (lim : Option Nat) (scheds : List CourseSchedule)
    (acc : List String) (u : String) (h : u ∈ dateScan sb eb lim acc scheds) :
    u ∈ acc ∨ ∃ s ∈ scheds, s.resource_uri = u := by
  induction scheds generalizing acc with
  | nil =>
    simp [dateScan] at h
    exact Or.inl h
  | cons s rest ih =>
    by_cases h1 : dateSkipStart sb s
    · simp only [dateScan, h1, if_true] at h
      rcases ih acc h with ha | ⟨t, ht, hu⟩
      · exact Or.inl ha
      · exact Or.inr ⟨t, by simp [ht], hu⟩
    · by_cases h2 : dateSkipEnd eb s
      · simp only [dateScan, h1, h2, if_false, if_true] at h
        rcases ih acc h with ha | ⟨t, ht, hu⟩
        · exact Or.inl ha
        · exact Or.inr ⟨t, by simp [ht], hu⟩
      · by_cases hm : s.resource_uri ∈ acc
        · simp only [dateScan, h1, h2, hm, if_false, if_true] at h
          rcases ih acc h with ha | ⟨t, ht, hu⟩
          · exact Or.inl ha
          · exact Or.inr ⟨t, by simp [ht], hu⟩
        · have hstep :
              ∀ v, v ∈ acc ++ [s.resource_uri] → v ∈ acc ∨ ∃ t ∈ s :: rest, t.resource_uri = v := by
            intro v hv
            rcases List.mem_append.mp hv with hv | hv
            · exact Or.inl hv
            · exact Or.inr ⟨s, by simp, (List.mem_singleton.mp hv).symm⟩
          simp only [dateScan, h1, h2, hm, if_false] at h
          match lim with
          | none =>
            rcases ih (acc ++ [s.resource_uri]) h with ha | ⟨t, ht, hu⟩
            · rcases hstep u ha with ha' | hex
              · exact Or.inl ha'
              · exact Or.inr hex
            · exact Or.inr ⟨t, by simp [ht], hu⟩
          | some l =>
            by_cases hl : l ≤ (acc ++ [s.resource_uri]).length
            · simp only [hl, if_true] at h
              rcases hstep u h with ha' | hex
              · exact Or.inl ha'
              · exact Or.inr hex
            · simp only [hl, if_false] at h
              rcases ih (acc ++ [s.resource_uri]) h with ha | ⟨t, ht, hu⟩
              · rcases hstep u ha with ha' | hex
                · exact Or.inl ha'
                · exact Or.inr hex
              · exact Or.inr ⟨t, by simp [ht], hu⟩

theorem nodup_dateScan (sb eb : Option Int) (lim : Option Nat) (scheds : List CourseSchedule)
    (acc : List String) (h : acc.Nodup) : (dateScan sb eb lim acc scheds).Nodup := by
  induction scheds generalizing acc with
  | nil => exact h
  | cons s rest ih =>
    by_cases h1 : dateSkipStart sb s
    · simp only [dateScan, h1, if_true]
      exact ih acc h
    · by_cases h2 : dateSkipEnd eb s
      · simp only [dateScan, h1, h2, if_false, if_true]
        exact ih acc h
      · by_cases hm : s.resource_uri ∈ acc
        · simp only [dateScan, h1, h2, hm, if_false, if_true]
          exact ih acc h
        · have hacc' : (acc ++ [s.resource_uri]).Nodup := by
            simp [List.nodup_append, h, hm]
          simp only [dateScan, h1, h2, hm, if_false]
          match lim with
          | none => exact ih _ hacc'
          | some l =>
            by_cases hl : l ≤ (acc ++ [s.resource_uri]).length
            · simp only [hl, if_true]
              exact hacc'
            · simp only [hl, if_false]
              exact ih _ hacc'

theorem dateScan_none_grows (sb eb : Option Int) (scheds : List CourseSchedule)
    (acc : List String) : ∃ t, dateScan sb eb none acc scheds = acc ++ t := by
  induction scheds generalizing acc with
  | nil => exact ⟨[], by simp [dateScan]⟩
  | cons s rest ih =>
    by_cases h1 : dateSkipStart sb s
    · simpa only [dateScan, h1, if_true] using ih acc
    · by_cases h2 : dateSkipEnd eb s
      · simpa only [dateScan, h1, h2, if_false, if_true] using ih acc
      · by_cases hm : s.resource_uri ∈ acc
        · simpa only [dateScan, h1, h2, hm, if_false, if_true] using ih acc
        · obtain ⟨t, ht⟩ := ih (acc ++ [s.resource_uri])
          exact ⟨s.resource_uri :: t, by simp only [dateScan, h1, h2, hm, if_false, ht]; simp⟩

theorem dateScan_some_take (sb eb : Option Int) (l : Nat) (scheds : List CourseSchedule)
    (acc : List String) (h : acc.length < l) :
    dateScan sb eb (some l) acc scheds = (dateScan sb eb none acc scheds).take l := by
  induction scheds generalizing acc with
  | nil =>
    simp only [dateScan]
    exact (List.take_of_length_le (le_of_lt h)).symm
  | cons s rest ih =>
    by_cases h1 : dateSkipStart sb s
    · simp only [dateScan, h1, if_true]
      exact ih acc h
    · by_cases h2 : dateSkipEnd eb s
      · simp only [dateScan, h1, h2, if_false, if_true]
        exact ih acc h
      · by_cases hm : s.resource_uri ∈ acc
        · simp only [dateScan, h1, h2, hm, if_false, if_true]
          exact ih acc h
        · simp only [dateScan, h1, h2, hm, if_false, Bool.false_eq_true]
          by_cases hl : l ≤ (acc ++ [s.resource_uri]).length
          · simp only [hl, if_true]
            obtain ⟨t, ht⟩ := dateScan_none_grows sb eb rest (acc ++ [s.resource_uri])
            rw [ht, List.take_append_of_le_length hl,
              List.take_of_length_le (by simp at hl ⊢; omega)]
          · simp only [hl, if_false]
            have hlen : (acc ++ [s.resource_uri]).length < l := lt_of_not_le hl
            exact ih (acc ++ [s.resource_uri]) hlen

theorem kwAddBucket_none_snd (acc us : List String) : (kwAddBucket none acc us).2 = false := by
  induction us generalizing acc with
  | nil => simp [kwAddBucket]
  | cons u rest ih =>
    by_cases hm : u ∈ acc
    · simp only [kwAddBucket, hm, if_true]
      exact ih acc
    · simp only [kwAddBucket, hm, if_false]
      exact ih (acc ++ [u])

theorem kwAddBucket_none_grows (acc us : List String) :
    ∃ t, (kwAddBucket none acc us).1 = acc ++ t := by
  induction us generalizing acc with
  | nil => exact ⟨[], by simp [kwAddBucket]⟩
  | cons u rest ih =>
    by_cases hm : u ∈ acc
    · simpa only [kwAddBucket, hm, if_true] using ih acc
    · obtain ⟨t, ht⟩ := ih (acc ++ [u])
      exact ⟨u :: t, by simp only [kwAddBucket, hm, if_false, ht]; simp⟩

theorem mem_kwAddBucket (lim : Option Nat) (acc us : List String) (u : String)
    (h : u ∈ (kwAddBucket lim acc us).1) : u ∈ acc ∨ u ∈ us := by
  induction us generalizing acc with
  | nil =>
    simp [kwAddBucket] at h
    exact Or.inl h
  | cons v rest ih =>
    by_cases hm : v ∈ acc
    · simp only [kwAddBucket, hm, if_true] at h
      rcases ih acc h with h' | h'
      · exact Or.inl h'
      · exact Or.inr (by simp [h'])
    · have hnext : u ∈ acc ++ [v] → u ∈ acc ∨ u ∈ v :: rest := by
        intro hv
        rcases List.mem_append.mp hv with hv | hv
        · exact Or.inl hv
        · exact Or.inr (by simp [List.mem_singleton.mp hv])
      simp only [kwAddBucket, hm, if_false] at h
      match lim with
      | none =>
        rcases ih (acc ++ [v]) h with h' | h'
        · exact hnext h'
        · exact Or.inr (by simp [h'])
      | some l =>
        by_cases hl : l ≤ (acc ++ [v]).length
        · simp only [hl, if_true] at h
          exact hnext h
        · simp only [hl, if_false] at h
          rcases ih (acc ++ [v]) h with h' | h'
          · exact hnext h'
          · exact Or.inr (by simp [h'])

theorem nodup_kwAddBucket (lim : Option Nat) (acc us : List String) (h : acc.Nodup) :
    (kwAddBucket lim acc us).1.Nodup := by
  induction us generalizing acc with
  | nil => exact h
  | cons v rest ih =>
    by_cases hm : v ∈ acc
    · simp only [kwAddBucket, hm, if_true]
      exact ih acc h
    · have hacc' : (acc ++ [v]).Nodup := by simp [List.nodup_append, h, hm]
      simp only [kwAddBucket, hm, if_false]
      match lim with
      | none => exact ih _ hacc'
      | some l =>
        by_cases hl : l ≤ (acc ++ [v]).length
        · simp only [hl, if_true]
          exact hacc'
        · simp only [hl, if_false]
          exact ih _ hacc'

theorem kwAddBucket_some_take (l : Nat) (us acc : List String) (h : acc.length < l) :
    (kwAddBucket (some l) acc us).1 = ((kwAddBucket none acc us).1).take l ∧
      ((kwAddBucket (some l) acc us).2 = true ↔ l ≤ ((kwAddBucket none acc us).1).length) := by
  induction us generalizing acc with
  | nil =>
    refine ⟨(List.take_of_length_le (le_of_lt h)).symm, ?_⟩
    simp [kwAddBucket]
    omega
  | cons v rest ih =>
    by_cases hm : v ∈ acc
    · simp only [kwAddBucket, hm, if_true]
      exact ih acc h
    · simp only [kwAddBucket, hm, if_false]
      by_cases hl : l ≤ (acc ++ [v]).length
      · simp only [hl, if_true]
        obtain ⟨t, ht⟩ := kwAddBucket_none_grows (acc ++ [v]) rest
        constructor
        · rw [ht, List.take_append_of_le_length hl,
            List.take_of_length_le (by simp at hl ⊢; omega)]
        · simp only [true_iff]
          rw [ht]
          simp at hl ⊢
          omega
      · simp only [hl, if_false]
        exact ih (acc ++ [v]) (lt_of_not_le hl)

theorem kwScanTokens_none_grows (idx : KeywordIndex) (ts acc : List String) :
    ∃ t, kwScanTokens idx none acc ts = acc ++ t := by
  induction ts generalizing acc with
  | nil => exact ⟨[], by simp [kwScanTokens]⟩
  | cons tk rest ih =>
    obtain ⟨t1, ht1⟩ := kwAddBucket_none_grows acc (bucketGet idx.token_to_resources tk)
    have hsnd := kwAddBucket_none_snd acc (bucketGet idx.token_to_resources tk)
    obtain ⟨t2, ht2⟩ := ih (acc ++ t1)
    refine ⟨t1 ++ t2, ?_⟩
    simp only [kwScanTokens]
    rw [show kwAddBucket none acc (bucketGet idx.token_to_resources tk) =
      ((kwAddBucket none acc (bucketGet idx.token_to_resources tk)).1,
        (kwAddBucket none acc (bucketGet idx.token_to_resources tk)).2) from rfl, hsnd, ht1]
    simp only []
    rw [ht2, List.append_assoc]

theorem kwScanTokens_some_take (idx : KeywordIndex) (l : Nat) (ts acc : List String)
    (h : acc.length < l) :
    kwScanTokens idx (some l) acc ts = (kwScanTokens idx none acc ts).take l := by
  induction ts generalizing acc with
  | nil =>
    simp only [kwScanTokens]
    exact (List.take_of_length_le (le_of_lt h)).symm
  | cons tk rest ih =>
    set bucket := bucketGet idx.token_to_resources tk with hb
    obtain ⟨htake, hflag⟩ := kwAddBucket_some_take l bucket acc h
    have hsnd := kwAddBucket_none_snd acc bucket
    set full1 := (kwAddBucket none acc bucket).1 with hfull1
    simp only [kwScanTokens]
    rw [show kwAddBucket none acc bucket =
      ((kwAddBucket none acc bucket).1, (kwAddBucket none acc bucket).2) from rfl, hsnd]
    rw [show kwAddBucket (some l) acc bucket =
      ((kwAddBucket (some l) acc bucket).1, (kwAddBucket (some l) acc bucket).2) from rfl]
    by_cases hstop : l ≤ full1.length
    · have hfl : (kwAddBucket (some l) acc bucket).2 = true := hflag.mpr hstop
      rw [hfl]
      simp only []
      obtain ⟨t, ht⟩ := kwScanTokens_none_grows idx rest full1
      rw [htake, ht, List.take_append_of_le_length hstop]
    · have hfl : (kwAddBucket (some l) acc bucket).2 = false := by
        rcases hx : (kwAddBucket (some l) acc bucket).2 with _ | _
        · rfl
        · exact absurd (hflag.mp hx) hstop
      rw [hfl]
      simp only []
      have hlt : full1.length < l := lt_of_not_le hstop
      rw [htake, List.take_of_length_le (le_of_lt hlt)]
      exact ih full1 hlt

theorem mem_kwScanTokens (idx : KeywordIndex) (lim : Option Nat) (ts acc : List String)
    (u : String) (h : u ∈ kwScanTokens idx lim acc ts) :
    u ∈ acc ∨ ∃ tk ∈ ts, u ∈ bucketGet idx.token_to_resources tk := by
  induction ts generalizing acc with
  | nil =>
    simp only [kwScanTokens] at h
    exact Or.inl h
  | cons tk rest ih =>
    simp only [kwScanTokens] at h
    rcases hab : kwAddBucket lim acc (bucketGet idx.token_to_resources tk) with ⟨seen', fl⟩
    rw [hab] at h
    have hseen : ∀ v, v ∈ seen' →
        v ∈ acc ∨ ∃ tk' ∈ tk :: rest, v ∈ bucketGet idx.token_to_resources tk' := by
      intro v hv
      have := mem_kwAddBucket lim acc (bucketGet idx.token_to_resources tk) v
        (by rw [hab]; exact hv)
      rcases this with hv' | hv'
      · exact Or.inl hv'
      · exact Or.inr ⟨tk, by simp, hv'⟩
    match fl with
    | true => exact hseen u h
    | false =>
      rcases ih seen' h with h' | ⟨tk', htk', hu⟩
      · exact hseen u h'
      · exact Or.inr ⟨tk', by simp [htk'], hu⟩

theorem nodup_kwScanTokens (idx : KeywordIndex) (lim : Option Nat) (ts acc : List String)
    (h : acc.Nodup) : (kwScanTokens idx lim acc ts).Nodup := by
  induction ts generalizing acc with
  | nil => exact h
  | cons tk rest ih =>
    simp only [kwScanTokens]
    rcases hab : kwAddBucket lim acc (bucketGet idx.token_to_resources tk) with ⟨seen', fl⟩
    have hseen : seen'.Nodup := by
      have := nodup_kwAddBucket lim acc (bucketGet idx.token_to_resources tk) h
      rw [hab] at this
      exact this
    match fl with
    | true => exact hseen
    | false => exact ih seen' hseen

/-- Invariant of every bucket map the index builders produce: each bucket is
duplicate-free and only holds identifiers from `S`. -/
def GoodMap {K : Type} [DecidableEq K] (S : List String) (m : List (K × List String)) : Prop :=
  ∀ k, (bucketGet m k).Nodup ∧ ∀ u ∈ bucketGet m k, u ∈ S

theorem goodMap_nil {K : Type} [DecidableEq K] (S : List String) :
    GoodMap S ([] : List (K × List String)) := by
  intro k
  simp [bucketGet]

theorem goodMap_bucketInsert {K : Type} [DecidableEq K] {S : List String}
    {m : List (K × List String)} (h : GoodMap S m) (k : K) {v : String} (hv : v ∈ S) :
    GoodMap S (bucketInsert m k v) := by
  intro k'
  refine ⟨nodup_bucketGet_bucketInsert k v k' (fun j => (h j).1), ?_⟩
  intro u hu
  rcases mem_bucketGet_bucketInsert hu with hu' | rfl
  · exact (h k').2 u hu'
  · exact hv

theorem goodMap_foldl_inserts {K : Type} [DecidableEq K] {S : List String} {α : Type}
    (keyOf : α → K) (v : String) (hv : v ∈ S) (l : List α)
    {m : List (K × List String)} (h : GoodMap S m) :
    GoodMap S (l.foldl (fun m a => bucketInsert m (keyOf a) v) m) :=
  foldl_preserve (GoodMap S) _ l m h (fun _ a _ hacc => goodMap_bucketInsert hacc (keyOf a) hv)

theorem goodMap_keyword_index (rs : List (String × TrainingResource)) :
    GoodMap (rs.map Prod.fst) (KeywordIndex.from_resources rs).token_to_resources := by
  refine foldl_preserve (GoodMap (rs.map Prod.fst)) _ rs [] (goodMap_nil _) ?_
  intro acc p hp hacc
  exact goodMap_foldl_inserts (fun t => t) p.1 (List.mem_map_of_mem Prod.fst hp)
    (collect_keyword_tokens p.2) hacc

theorem goodMap_provider_index (rs : List (String × TrainingResource)) :
    GoodMap (rs.map Prod.fst) (ProviderIndex.from_resources rs).provider_to_resources := by
  refine foldl_preserve (GoodMap (rs.map Prod.fst)) _ rs [] (goodMap_nil _) ?_
  intro acc p hp hacc
  match p.2.provider with
  | none => exact hacc
  | some org =>
    by_cases hn : org.name = ""
    · simp only [hn, if_true]
      exact hacc
    · simp only [hn, if_false]
      exact goodMap_bucketInsert hacc _ (List.mem_map_of_mem Prod.fst hp)

theorem goodMap_topic_index (rs : List (String × TrainingResource)) :
    GoodMap (rs.map Prod.fst) (TopicIndex.from_resources rs).topic_to_resources := by
  refine foldl_preserve (GoodMap (rs.map Prod.fst)) _ rs [] (goodMap_nil _) ?_
  intro acc p hp hacc
  refine foldl_preserve (GoodMap (rs.map Prod.fst)) _ p.2.topics acc hacc ?_
  intro m topic _ hm
  unfold topicAdd
  have h1 := goodMap_bucketInsert hm (stripLower topic)
    (List.mem_map_of_mem Prod.fst hp)
  by_cases hs : containsSlash topic
  · simp only [hs, if_true]
    exact goodMap_bucketInsert h1 _ (List.mem_map_of_mem Prod.fst hp)
  · simp only [hs, if_false]
    exact h1

/-- Joint invariant for the location index: both maps are good and every
(country, city) bucket is contained in the corresponding country bucket. -/
def LocGood (S : List String) (maps : LocationIndex) : Prop :=
  GoodMap S maps.country_map ∧ GoodMap S maps.country_city_map ∧
    ∀ ck ci u, u ∈ bucketGet maps.country_city_map (ck, ci) →
      u ∈ bucketGet maps.country_map ck

theorem locGood_addInstance {S : List String} {maps : LocationIndex} (h : LocGood S maps)
    {uri : String} (huri : uri ∈ S) (inst : CourseInstance) :
    LocGood S (locAddInstance maps uri inst) := by
  obtain ⟨hcm, hccm, hsub⟩ := h
  unfold locAddInstance
  match inst.country with
  | none => exact ⟨hcm, hccm, hsub⟩
  | some c =>
    by_cases hc : c = ""
    · simp only [hc, if_true]
      exact ⟨hcm, hccm, hsub⟩
    · simp only [hc, if_false]
      have hcm' := goodMap_bucketInsert hcm (stripLower c) huri
      match inst.locality with
      | none =>
        refine ⟨hcm', hccm, ?_⟩
        intro ck ci u hu
        exact mem_bucketGet_insert_of_mem _ _ (hsub ck ci u hu)
      | some l =>
        by_cases hl : l = ""
        · simp only [hl, if_true]
          refine ⟨hcm', hccm, ?_⟩
          intro ck ci u hu
          exact mem_bucketGet_insert_of_mem _ _ (hsub ck ci u hu)
        · simp only [hl, if_false]
          refine ⟨hcm', goodMap_bucketInsert hccm _ huri, ?_⟩
          intro ck ci u hu
          by_cases hkey : (ck, ci) = (stripLower c, stripLower l)
          · rcases mem_bucketGet_bucketInsert hu with hu' | rfl
            · exact mem_bucketGet_insert_of_mem _ _ (hsub ck ci u hu')
            · rw [show ck = stripLower c from congrArg Prod.fst hkey]
              exact self_mem_bucketGet_insert _ _ _
          · simp only at hu ⊢
            rw [bucketGet_bucketInsert, if_neg hkey] at hu
            exact mem_bucketGet_insert_of_mem _ _ (hsub ck ci u hu)

theorem locGood_location_index (rs : List (String × TrainingResource)) :
    LocGood (rs.map Prod.fst) (LocationIndex.from_resources rs) := by
  refine foldl_preserve (LocGood (rs.map Prod.fst)) _ rs ⟨[], []⟩
    ⟨goodMap_nil _, goodMap_nil _, by intro ck ci u hu; simp [bucketGet] at hu⟩ ?_
  intro acc p hp hacc
  exact foldl_preserve (LocGood (rs.map Prod.fst)) _ p.2.course_instances acc hacc
    (fun acc' inst _ hacc' => locGood_addInstance hacc' (List.mem_map_of_mem Prod.fst hp) inst)

theorem mem_schedOfInstance (uri : String) (inst : CourseInstance) (s : CourseSchedule) :
    s ∈ schedOfInstance uri inst ↔
      ∃ sd, inst.start_date = some sd ∧ s = ⟨uri, sd, inst.end_date⟩ := by
  match hsd : inst.start_date with
  | none => simp [schedOfInstance, hsd]
  | some sd => simp [schedOfInstance, hsd]

theorem mem_schedules_from_resources (rs : List (String × TrainingResource))
    (s : CourseSchedule) :
    s ∈ (DateIndex.from_resources rs).schedules ↔
      ∃ p ∈ rs, ∃ inst ∈ p.2.course_instances, ∃ sd, inst.start_date = some sd ∧
        s = ⟨p.1, sd, inst.end_date⟩ := by
  show s ∈ sortByStart (rs.foldl (fun acc p => acc ++ schedulesOf p) []) ↔ _
  rw [mem_sortByStart, foldl_append_flatMap schedulesOf rs []]
  simp only [List.nil_append, List.mem_flatMap]
  constructor
  · rintro ⟨p, hp, hs⟩
    rw [schedulesOf_eq_flatMap] at hs
    rcases List.mem_flatMap.mp hs with ⟨inst, hinst, hsi⟩
    rcases (mem_schedOfInstance p.1 inst s).mp hsi with ⟨sd, hsd, rfl⟩
    exact ⟨p, hp, inst, hinst, sd, hsd, rfl⟩
  · rintro ⟨p, hp, inst, hinst, sd, hsd, rfl⟩
    refine ⟨p, hp, ?_⟩
    rw [schedulesOf_eq_flatMap]
    exact List.mem_flatMap.mpr ⟨inst, hinst,
      (mem_schedOfInstance p.1 inst _).mpr ⟨sd, hsd, rfl⟩⟩

theorem truthyStr_isSome {o : Option String} (h : truthyStr o = true) : o.isSome = true := by
  match o with
  | none => simp [truthyStr] at h
  | some s => rfl

theorem truthyInt_isSome {o : Option Int} (h : truthyInt o = true) : o.isSome = true := by
  match o with
  | none => simp [truthyInt] at h
  | some n => rfl

theorem dedupStep_get_none {m : List (String × TrainingResource)} {r : TrainingResource}
    (h : assocGet m r.uri = none) : assocGet (dedupStep m r) r.uri = some r := by
  unfold dedupStep
  rw [h]
  rw [assocGet_assocSet, if_pos rfl]

theorem dedupStep_get {m : List (String × TrainingResource)} {r e : TrainingResource}
    (h : assocGet m r.uri = some e) :
    assocGet (dedupStep m r) r.uri =
      some (if resource_quality e < resource_quality r then r else e) := by
  have hstep : dedupStep m r =
      if is_richer_resource r e = true then assocSet m r.uri r else m := by
    unfold dedupStep
    rw [h]
  rw [hstep]
  by_cases hq : resource_quality e < resource_quality r
  · rw [if_pos (by simp [is_richer_resource, hq]), assocGet_assocSet, if_pos rfl, if_pos hq]
  · rw [if_neg (by simp [is_richer_resource, hq]), if_neg hq]
    exact h

theorem mergeOverwrite_last (m : List (String × TrainingResource))
    (rs : List (String × TrainingResource)) (u : String) (r : TrainingResource) :
    assocGet (mergeOverwrite m (rs ++ [(u, r)])) u = some r := by
  unfold mergeOverwrite
  rw [List.foldl_append]
  simp only [List.foldl_cons, List.foldl_nil]
  rw [assocGet_assocSet, if_pos rfl]

theorem loadSources_isOk_false (sp : List (String × Option (List TrainingResource)))
    (acc : List (String × TrainingResource) × List (String × Nat) × List (String × String))
    (h : ∃ p ∈ sp, p.2 = none) : (loadSources acc sp).isOk = false := by
  induction sp generalizing acc with
  | nil => simp at h
  | cons p rest ih =>
    obtain ⟨k, pay⟩ := p
    match pay with
    | none => rfl
    | some g =>
      obtain ⟨q, hq, hq2⟩ := h
      rcases List.mem_cons.mp hq with rfl | hq'
      · simp at hq2
      · obtain ⟨rm, counts, graphs⟩ := acc
        exact ih _ ⟨q, hq', hq2⟩

/-!
Concrete inputs for the witnesses, counterexamples and spec test cases.
Dates are encoded as yyyymmdd integers, an order-embedding of the calendar
dates the spec's examples use (all at midnight UTC).
-/

/-- A resource for identifier "u" with one populated scalar field. -/
def rRich : TrainingResource := { emptyResource "u" "s1" with name := some "x" }

/-- An entirely empty resource for the same identifier "u". -/
def rPoor : TrainingResource := emptyResource "u" "s2"

/-- Two declared sources whose raw graphs each yield one candidate for the
same identifier; the richer one arrives from the source loaded first. -/
def crossSourceInput : List (String × Option (List TrainingResource)) :=
  [("s1", some [rRich]), ("s2", some [rPoor])]

/-- Course instance spanning 2025-01-10 to 2025-01-20, located in Montreal. -/
def instWinter : CourseInstance :=
  { start_date := some 20250110, start_raw := some "2025-01-10"
    end_date := some 20250120, end_raw := some "2025-01-20"
    mode := none, capacity := none
    country := some "Canada", locality := some "Montreal"
    postal_code := none, street_address := none, latitude := none, longitude := none
    funders := [], organizers := [] }

/-- Course instance starting 2025-01-25 with no end date, located in Toronto. -/
def instSpring : CourseInstance :=
  { start_date := some 20250125, start_raw := some "2025-01-25"
    end_date := none, end_raw := none
    mode := none, capacity := none
    country := some "Canada", locality := some "Toronto"
    postal_code := none, street_address := none, latitude := none, longitude := none
    funders := [], organizers := [] }

/-- Resource "A" offered once in winter (Montreal only). -/
def resWinter : TrainingResource :=
  { emptyResource "A" "s" with course_instances := [instWinter] }

/-- Resource "B" offered once in spring (Toronto only). -/
def resSpring : TrainingResource :=
  { emptyResource "B" "s" with course_instances := [instSpring] }

/-- The deduplicated map holding the two dated example resources. -/
def exResources : List (String × TrainingResource) := [("A", resWinter), ("B", resSpring)]

/-- The date index of the two example resources. -/
def exDateIndex : DateIndex := DateIndex.from_resources exResources

/-- The location index of the two example resources. -/
def exLocIndex : LocationIndex := LocationIndex.from_resources exResources

/-- Resource "p" provided by the organization named "Bioinformatics.ca". -/
def resProv : TrainingResource :=
  { emptyResource "p" "s" with provider := some { name := "Bioinformatics.ca", url := none } }

/-- The provider index of the provider example. -/
def exProviderIndex : ProviderIndex := ProviderIndex.from_resources [("p", resProv)]

/-- Resource "u" with a slash-containing topic whose final path segment
begins with a space. -/
def resTopicOdd : TrainingResource := { emptyResource "u" "s" with topics := ["a/ b"] }

/-- The topic index of the odd-topic example. -/
def exTopicIndex : TopicIndex := TopicIndex.from_resources [("u", resTopicOdd)]

/-- Resource "u" whose only indexed text is the name "alpha". -/
def resAlpha : TrainingResource := { emptyResource "u" "s" with name := some "alpha" }

/-- The keyword index of the one-word example. -/
def exKwIndex : KeywordIndex := KeywordIndex.from_resources [("u", resAlpha)]

/-- A single healthy source for exercising `load_training_data` on the happy
path. -/
def exLoadInput : List (String × Option (List TrainingResource)) := [("s", some [resAlpha])]

/-- The store `load_training_data` produces on `exLoadInput` (with an inert
fallback on the unreachable error branch). -/
def exStore : TrainingDataStore :=
  match load_training_data exLoadInput with
  | Except.ok st => st
  | Except.error _ =>
    { resources_by_uri := [], per_source_counts := [], source_graphs := []
      keyword_index := ⟨[]⟩, provider_index := ⟨[]⟩, location_index := ⟨[], []⟩
      date_index := ⟨[]⟩, topic_index := ⟨[]⟩ }

/-!
The claims.
-/

/-- C1, counterexample: the richness rule is not applied uniformly across
sources. Loading a richer candidate from source "s1" and then an empty
candidate for the same identifier from source "s2" leaves the poorer entity
in the final map, while the same two candidates inside one source keep the
richer one. -/
theorem load_cross_source_overwrite_cex :
    (match load_training_data crossSourceInput with
      | Except.ok st => assocGet st.resources_by_uri "u"
      | Except.error _ => none) = some rPoor ∧
    assocGet (extract_resources_from_graph [rRich, rPoor]) "u" = some rRich ∧
    resource_quality rPoor < resource_quality rRich := by
  refine ⟨by decide, by decide, by decide⟩

/-- C1 (amended): within one source's extraction the per-identifier
selection is decided by the richness comparison (strictly higher wins, ties
keep the existing entity), but across sources `load_training_data`
overwrites unconditionally: after a later source is processed, the entity
stored for an identifier is that source's candidate regardless of either
richness score. -/
theorem dedupe_same_source_richness_cross_source_overwrite :
    (∀ (m : List (String × TrainingResource)) (r e : TrainingResource),
        assocGet m r.uri = some e →
        assocGet (dedupStep m r) r.uri =
          some (if resource_quality e < resource_quality r then r else e)) ∧
    (∀ (m rs : List (String × TrainingResource)) (u : String) (r : TrainingResource),
        assocGet (mergeOverwrite m (rs ++ [(u, r)])) u = some r) :=
  ⟨fun _ _ _ h => dedupStep_get h, fun m rs u r => mergeOverwrite_last m rs u r⟩

/-- Witness for the amended C1 theorem at concrete inputs. -/
theorem dedupe_same_source_richness_cross_source_overwrite_witness :
    assocGet (dedupStep [("u", rPoor)] rRich) "u" = some rRich ∧
    assocGet (mergeOverwrite [] ([("u", rRich)] ++ [("u", rPoor)])) "u" = some rPoor := by
  constructor
  · have h := dedupe_same_source_richness_cross_source_overwrite.1 [("u", rPoor)] rRich rPoor
      (by decide)
    exact h.trans (by decide)
  · exact dedupe_same_source_richness_cross_source_overwrite.2 [] [("u", rRich)] "u" rPoor

/-- C4: the per-identifier selection keeps the candidate exactly when its
richness score is strictly greater than the current holder's (a tie keeps
the existing entity), and for two candidates with distinct scores the final
entity does not depend on arrival order. -/
theorem dedupe_selection_by_score :
    (∀ (m : List (String × TrainingResource)) (r e : TrainingResource),
        assocGet m r.uri = some e →
        assocGet (dedupStep m r) r.uri =
          some (if resource_quality e < resource_quality r then r else e)) ∧
    (∀ c1 c2 : TrainingResource, c1.uri = c2.uri →
        ¬ resource_quality c1 = resource_quality c2 →
        assocGet (extract_resources_from_graph [c1, c2]) c1.uri =
          assocGet (extract_resources_from_graph [c2, c1]) c1.uri) := by
  constructor
  · exact fun _ _ _ h => dedupStep_get h
  · intro c1 c2 huri hne
    have hstep1 : extract_resources_from_graph [c1, c2] = dedupStep (dedupStep [] c1) c2 := rfl
    have hstep2 : extract_resources_from_graph [c2, c1] = dedupStep (dedupStep [] c2) c1 := rfl
    have hbase1 : dedupStep ([] : List (String × TrainingResource)) c1 = [(c1.uri, c1)] := rfl
    have hbase2 : dedupStep ([] : List (String × TrainingResource)) c2 = [(c2.uri, c2)] := rfl
    have hget1 : assocGet [(c1.uri, c1)] c2.uri = some c1 := by
      simp [assocGet, huri]
    have hget2 : assocGet [(c2.uri, c2)] c1.uri = some c2 := by
      simp [assocGet, huri]
    have h1 := dedupStep_get (m := [(c1.uri, c1)]) (r := c2) (e := c1) hget1
    have h2 := dedupStep_get (m := [(c2.uri, c2)]) (r := c1) (e := c2) hget2
    rw [← huri] at h1
    rw [hstep1, hstep2, hbase1, hbase2, h1, h2]
    rcases Nat.lt_or_ge (resource_quality c1) (resource_quality c2) with hlt | hge
    · rw [if_pos hlt, if_neg (by omega)]
    · have hgt : resource_quality c2 < resource_quality c1 := by
        rcases Nat.lt_or_ge (resource_quality c2) (resource_quality c1) with h | h
        · exact h
        · exact absurd (Nat.le_antisymm hge h) (fun e => hne e.symm)
      rw [if_neg (by omega), if_pos hgt]

/-- Witness for the C4 theorem at concrete inputs. -/
theorem dedupe_selection_by_score_witness :
    assocGet (dedupStep [("u", rRich)] rPoor) "u" = some rRich ∧
    assocGet (extract_resources_from_graph [rRich, rPoor]) rRich.uri =
      assocGet (extract_resources_from_graph [rPoor, rRich]) rRich.uri := by
  constructor
  · have h := dedupe_selection_by_score.1 [("u", rRich)] rPoor rRich (by decide)
    exact h.trans (by decide)
  · exact dedupe_selection_by_score.2 rRich rPoor (by decide) (by decide)

/-- C3: the richness score equals the number of truthy scalar fields from
the fixed 16-entry list plus the number of non-empty collection fields from
the fixed 15-entry list, so each field contributes at most one point
regardless of how many elements a collection holds (the keyword-list
conjunct), and adding a populated description to an otherwise identical
entity strictly raises the score. -/
theorem resource_quality_counts_fields :
    (∀ r : TrainingResource,
        resource_quality r = (scalarTruthy r).count true + (collectionTruthy r).count true) ∧
    (∀ (r : TrainingResource) (ks ks' : List String), ¬ ks = [] → ¬ ks' = [] →
        resource_quality { r with keywords := ks } =
          resource_quality { r with keywords := ks' }) ∧
    (∀ (r : TrainingResource) (d : String), ¬ d = "" → r.description = none →
        resource_quality r < resource_quality { r with description := some d }) := by
  refine ⟨?_, ?_, ?_⟩
  · intro r
    unfold resource_quality
    rw [foldl_count_true, foldl_count_true]
    omega
  · intro r ks ks' h h'
    have e1 : ks.isEmpty = false := by simpa using h
    have e2 : ks'.isEmpty = false := by simpa using h'
    simp [resource_quality, scalarTruthy, collectionTruthy, e1, e2]
  · intro r d hd hdesc
    unfold resource_quality
    rw [foldl_count_true, foldl_count_true, foldl_count_true, foldl_count_true]
    simp only [scalarTruthy, collectionTruthy, hdesc]
    simp [truthyStr, hd, List.count_cons]

/-- Witness for the C3 theorem at concrete inputs. -/
theorem resource_quality_counts_fields_witness :
    resource_quality { emptyResource "u" "s" with keywords := ["a"] } =
      resource_quality { emptyResource "u" "s" with keywords := ["a", "b"] } ∧
    resource_quality (emptyResource "u" "s") <
      resource_quality { emptyResource "u" "s" with description := some "x" } := by
  constructor
  · exact resource_quality_counts_fields.2.1 (emptyResource "u" "s") ["a"] ["a", "b"]
      (by decide) (by decide)
  · exact resource_quality_counts_fields.2.2 (emptyResource "u" "s") "x" (by decide) (by decide)

/-- C8: a course-instance sub-node with none of the eight informative
fields set yields no `CourseInstance`; every constructed instance has at
least one informative field set; and an uninformative sub-node is silently
dropped from the collected sequence without affecting its neighbours. -/
theorem course_instance_informative_invariant :
    (∀ n : RawInstance,
        n.start_dt = none → n.start_raw = none → n.end_dt = none → n.end_raw = none →
        n.mode = none → n.capacity = none → n.country = none → n.locality = none →
        parse_course_instance n = none) ∧
    (∀ (n : RawInstance) (c : CourseInstance), parse_course_instance n = some c →
        (c.start_date.isSome || c.start_raw.isSome || c.end_date.isSome || c.end_raw.isSome ||
          c.mode.isSome || c.capacity.isSome || c.country.isSome || c.locality.isSome) = true) ∧
    (∀ (pre post : List RawInstance) (n : RawInstance), rawInformative n = false →
        collect_course_instances (pre ++ n :: post) = collect_course_instances (pre ++ post)) := by
  refine ⟨?_, ?_, ?_⟩
  · intro n h1 h2 h3 h4 h5 h6 h7 h8
    simp [parse_course_instance, rawInformative, h1, h2, h3, h4, h5, h6, h7, h8,
      truthyStr, truthyInt]
  · intro n c hc
    unfold parse_course_instance at hc
    by_cases hr : rawInformative n = true
    · rw [if_pos hr] at hc
      injection hc with hc
      subst hc
      show (n.start_dt.isSome || n.start_raw.isSome || n.end_dt.isSome || n.end_raw.isSome ||
        n.mode.isSome || n.capacity.isSome || n.country.isSome || n.locality.isSome) = true
      simp only [rawInformative, Bool.or_eq_true] at hr ⊢
      rcases hr with (((((((h | h) | h) | h) | h) | h) | h) | h)
      · tauto
      · have := truthyStr_isSome h
        tauto
      · tauto
      · have := truthyStr_isSome h
        tauto
      · have := truthyStr_isSome h
        tauto
      · have := truthyInt_isSome h
        tauto
      · have := truthyStr_isSome h
        tauto
      · have := truthyStr_isSome h
        tauto
    · rw [if_neg hr] at hc
      exact absurd hc (by simp)
  · intro pre post n h
    have hnone : parse_course_instance n = none := by
      simp [parse_course_instance, h]
    unfold collect_course_instances
    rw [List.foldl_append, List.foldl_append, List.foldl_cons, hnone]

/-- Witness for the C8 theorem at concrete inputs. -/
theorem course_instance_informative_invariant_witness :
    parse_course_instance
      { start_dt := none, start_raw := none, end_dt := none, end_raw := none, mode := none
        capacity := none, country := none, locality := none, postal_code := some "H3A"
        street_address := none, latitude := none, longitude := none, funders := []
        organizers := [] } = none ∧
    (instWinter.start_date.isSome || instWinter.start_raw.isSome || instWinter.end_date.isSome ||
      instWinter.end_raw.isSome || instWinter.mode.isSome || instWinter.capacity.isSome ||
      instWinter.country.isSome || instWinter.locality.isSome) = true ∧
    collect_course_instances
        [{ start_dt := none, start_raw := none, end_dt := none, end_raw := none, mode := none
           capacity := none, country := none, locality := none, postal_code := some "H3A"
           street_address := none, latitude := none, longitude := none, funders := []
           organizers := [] }] = collect_course_instances [] := by
  refine ⟨?_, ?_, ?_⟩
  · exact course_instance_informative_invariant.1 _ rfl rfl rfl rfl rfl rfl rfl rfl
  · exact course_instance_informative_invariant.2.1
      { start_dt := instWinter.start_date, start_raw := instWinter.start_raw
        end_dt := instWinter.end_date, end_raw := instWinter.end_raw
        mode := instWinter.mode, capacity := instWinter.capacity
        country := instWinter.country, locality := instWinter.locality
        postal_code := instWinter.postal_code, street_address := instWinter.street_address
        latitude := instWinter.latitude, longitude := instWinter.longitude
        funders := instWinter.funders, organizers := instWinter.organizers }
      instWinter (by decide)
  · exact course_instance_informative_invariant.2.2 [] []
      { start_dt := none, start_raw := none, end_dt := none, end_raw := none, mode := none
        capacity := none, country := none, locality := none, postal_code := some "H3A"
        street_address := none, latitude := none, longitude := none, funders := []
        organizers := [] } (by decide)

/-- C9: when any declared source's backing input is missing,
`load_training_data` returns no store, and the only error the loader can
produce is the file-not-found error. -/
theorem load_missing_source_fails :
    (∀ sp : List (String × Option (List TrainingResource)),
        (∃ p ∈ sp, p.2 = none) → (load_training_data sp).isOk = false) ∧
    (∀ (sp : List (String × Option (List TrainingResource))) (e : LoadError),
        load_training_data sp = Except.error e → ∃ k, e = LoadError.fileNotFound k) := by
  constructor
  · intro sp h
    have hls := loadSources_isOk_false sp ([], [], []) h
    unfold load_training_data
    cases hr : loadSources ([], [], []) sp with
    | error e => rfl
    | ok acc =>
      rw [hr] at hls
      simp [Except.isOk, Except.toBool] at hls
  · intro sp e _
    cases e with
    | fileNotFound k => exact ⟨k, rfl⟩

/-- Witness for the C9 theorem at a concrete input with one missing file. -/
theorem load_missing_source_fails_witness :
    (load_training_data [("missing", none)]).isOk = false :=
  load_missing_source_fails.1 [("missing", none)] ⟨("missing", none), by decide, rfl⟩

/-- C6: a country-plus-city location lookup never returns an identifier the
country-only lookup omits, and the Montreal-only resource "A" appears in
the country-level result but not in the Toronto city result. -/
theorem city_lookup_subset_country :
    (∀ (rs : List (String × TrainingResource)) (c ct u : String),
        u ∈ (LocationIndex.from_resources rs).lookup c (some ct) none →
        u ∈ (LocationIndex.from_resources rs).lookup c none none) ∧
    "A" ∈ exLocIndex.lookup "Canada" none none ∧
    ¬ "A" ∈ exLocIndex.lookup "Canada" (some "Toronto") none := by
  refine ⟨?_, by decide, by decide⟩
  intro rs c ct u hu
  obtain ⟨hcm, hccm, hsub⟩ := locGood_location_index rs
  by_cases hct : ct = ""
  · simpa [LocationIndex.lookup, applyLimit, hct] using hu
  · have hu' :
        u ∈ bucketGet (LocationIndex.from_resources rs).country_city_map
          (stripLower c, stripLower ct) := by
      simpa [LocationIndex.lookup, applyLimit, hct] using hu
    have hmem := hsub (stripLower c) (stripLower ct) u hu'
    simpa [LocationIndex.lookup, applyLimit] using hmem

/-- Witness for the C6 theorem: "A" is found under ("Canada", "Montreal")
and the theorem places it in the country-only result. -/
theorem city_lookup_subset_country_witness :
    "A" ∈ exLocIndex.lookup "Canada" none none :=
  city_lookup_subset_country.1 exResources "Canada" "Montreal" "A" (by decide)

/-- C7, counterexample: the topic short-name key is built case-folded but
not trimmed, so the key " b" (from the stored topic "a/ b") sits in the
index while the lookup, which trims its query, cannot return it — the
query normalization is not identical to how this key was built. -/
theorem topic_short_name_unnormalized_cex :
    bucketGet exTopicIndex.topic_to_resources " b" = ["u"] ∧
    exTopicIndex.lookup " b" none = [] := by
  exact ⟨by decide, by decide⟩

/-- C7 (amended): provider and topic lookups normalize their query with
trim plus case-fold, so any two queries agreeing after that normalization
return the identical, order-identical list — in particular the three
casings of "Bioinformatics.ca" — while the topic short-name key itself is
built without the trim step. -/
theorem lookup_query_normalization :
    (∀ (rs : List (String × TrainingResource)) (lim : Option Nat) (q1 q2 : String),
        stripLower q1 = stripLower q2 →
        (ProviderIndex.from_resources rs).lookup q1 lim =
          (ProviderIndex.from_resources rs).lookup q2 lim) ∧
    (∀ (rs : List (String × TrainingResource)) (lim : Option Nat) (q1 q2 : String),
        stripLower q1 = stripLower q2 →
        (TopicIndex.from_resources rs).lookup q1 lim =
          (TopicIndex.from_resources rs).lookup q2 lim) ∧
    exProviderIndex.lookup "Bioinformatics.ca" none = ["p"] ∧
    exProviderIndex.lookup "bioinformatics.ca" none = ["p"] ∧
    exProviderIndex.lookup "BIOINFORMATICS.CA" none = ["p"] := by
  refine ⟨?_, ?_, by decide, by decide, by decide⟩
  · intro rs lim q1 q2 h
    simp [ProviderIndex.lookup, h]
  · intro rs lim q1 q2 h
    simp [TopicIndex.lookup, h]

/-- Witness for the amended C7 theorem at concrete inputs. -/
theorem lookup_query_normalization_witness :
    exProviderIndex.lookup "  Bioinformatics.CA  " none =
      exProviderIndex.lookup "bioinformatics.ca" none :=
  lookup_query_normalization.1 [("p", resProv)] none "  Bioinformatics.CA  "
    "bioinformatics.ca" (by decide)

/-- C5, counterexample: at limit 0 the keyword scan checks the cap only
after appending, so it returns the first match while slicing the unbounded
result to zero elements returns the empty list — the early-stop scan is not
equivalent to slicing for every limit. -/
theorem limit_zero_not_slice_cex :
    exKwIndex.lookup "alpha" (some 0) = ["u"] ∧
    (exKwIndex.lookup "alpha" none).take 0 = [] ∧
    ¬ exKwIndex.lookup "alpha" (some 0) = (exKwIndex.lookup "alpha" none).take 0 := by
  exact ⟨by decide, by decide, by decide⟩

/-- C5 (amended): for every limit n with n ≥ 1, each of the five index
lookups with the limit returns exactly the first n elements of the same
lookup without a limit; at limit 0 the keyword and date scans instead
return the first match when one exists. -/
theorem limited_lookup_eq_take :
    ∀ (rs : List (String × TrainingResource)) (n : Nat), 1 ≤ n →
      (∀ q, (KeywordIndex.from_resources rs).lookup q (some n) =
          ((KeywordIndex.from_resources rs).lookup q none).take n) ∧
      (∀ pn, (ProviderIndex.from_resources rs).lookup pn (some n) =
          ((ProviderIndex.from_resources rs).lookup pn none).take n) ∧
      (∀ c ct, (LocationIndex.from_resources rs).lookup c ct (some n) =
          ((LocationIndex.from_resources rs).lookup c ct none).take n) ∧
      (∀ sb eb, (DateIndex.from_resources rs).lookup sb eb (some n) =
          ((DateIndex.from_resources rs).lookup sb eb none).take n) ∧
      (∀ t, (TopicIndex.from_resources rs).lookup t (some n) =
          ((TopicIndex.from_resources rs).lookup t none).take n) := by
  intro rs n hn
  refine ⟨?_, fun pn => rfl, fun c ct => rfl, ?_, fun t => rfl⟩
  · intro q
    exact kwScanTokens_some_take (KeywordIndex.from_resources rs) n (pyTokenize q) [] hn
  · intro sb eb
    exact dateScan_some_take sb eb n (DateIndex.from_resources rs).schedules [] hn

/-- Witness for the amended C5 theorem at limit 1 on the keyword index. -/
theorem limited_lookup_eq_take_witness :
    exKwIndex.lookup "alpha" (some 1) = (exKwIndex.lookup "alpha" none).take 1 :=
  (limited_lookup_eq_take [("u", resAlpha)] 1 (by decide)).1 "alpha"

/-- C2: the unlimited date lookup returns, first-seen deduplicated in the
order of the start-sorted schedule list, exactly the identifiers of
resources having a dated course instance whose effective end is not before
the start bound and whose start is not after the end bound; the schedule
list is sorted ascending by start; and the three spec test cases evaluate
as stated (dates encoded as yyyymmdd integers). -/
theorem date_index_lookup_spec :
    (∀ (rs : List (String × TrainingResource)) (sb eb : Option Int),
        (DateIndex.from_resources rs).lookup sb eb none =
          dedupFrom []
            (((DateIndex.from_resources rs).schedules.filter (matchesRange sb eb)).map
              CourseSchedule.resource_uri)) ∧
    (∀ (rs : List (String × TrainingResource)) (sb eb : Option Int) (u : String),
        u ∈ (DateIndex.from_resources rs).lookup sb eb none ↔
          ∃ p ∈ rs, p.1 = u ∧ ∃ inst ∈ p.2.course_instances, ∃ sd,
            inst.start_date = some sd ∧
            matchesRange sb eb ⟨u, sd, inst.end_date⟩ = true) ∧
    (∀ rs : List (String × TrainingResource),
        ((DateIndex.from_resources rs).schedules).Pairwise (fun a b => a.start ≤ b.start)) ∧
    exDateIndex.lookup (some 20250101) (some 20250131) none = ["A", "B"] ∧
    exDateIndex.lookup (some 20250115) (some 20250116) none = ["A"] ∧
    exDateIndex.lookup (some 20250126) (some 20250127) none = [] := by
  have hfilter : ∀ (rs : List (String × TrainingResource)) (sb eb : Option Int),
      (DateIndex.from_resources rs).schedules.filter
          (fun s => (!dateSkipStart sb s) && (!dateSkipEnd eb s)) =
        (DateIndex.from_resources rs).schedules.filter (matchesRange sb eb) :=
    fun rs sb eb => List.filter_congr (fun s _ => keep_eq_matchesRange sb eb s)
  have hlookup : ∀ (rs : List (String × TrainingResource)) (sb eb : Option Int),
      (DateIndex.from_resources rs).lookup sb eb none =
        dedupFrom []
          (((DateIndex.from_resources rs).schedules.filter (matchesRange sb eb)).map
            CourseSchedule.resource_uri) := by
    intro rs sb eb
    show dateScan sb eb none [] (DateIndex.from_resources rs).schedules = _
    rw [dateScan_none_eq, hfilter]
  refine ⟨hlookup, ?_, ?_, by decide, by decide, by decide⟩
  · intro rs sb eb u
    rw [hlookup, mem_dedupFrom]
    constructor
    · intro hm
      rcases hm with hm | hm
      · simp at hm
      · rcases List.mem_map.mp hm with ⟨s, hs, rfl⟩
        rcases List.mem_filter.mp hs with ⟨hsched, hmr⟩
        rcases (mem_schedules_from_resources rs s).mp hsched with
          ⟨p, hp, inst, hinst, sd, hsd, rfl⟩
        exact ⟨p, hp, rfl, inst, hinst, sd, hsd, hmr⟩
    · rintro ⟨p, hp, rfl, inst, hinst, sd, hsd, hmr⟩
      refine Or.inr (List.mem_map.mpr ⟨⟨p.1, sd, inst.end_date⟩, ?_, rfl⟩)
      refine List.mem_filter.mpr ⟨?_, hmr⟩
      exact (mem_schedules_from_resources rs _).mpr ⟨p, hp, inst, hinst, sd, hsd, rfl⟩
  · intro rs
    exact pairwise_sortByStart _

theorem applyLimit_nodup (lim : Option Nat) (xs : List String) (h : xs.Nodup) :
    (applyLimit lim xs).Nodup := by
  match lim with
  | none => exact h
  | some l => exact h.sublist (List.take_sublist l xs)

theorem mem_applyLimit {lim : Option Nat} {xs : List String} {u : String}
    (h : u ∈ applyLimit lim xs) : u ∈ xs := by
  match lim with
  | none => exact h
  | some l => exact (List.take_sublist l xs).subset h

theorem keyword_lookup_good (rs : List (String × TrainingResource)) (q : String)
    (lim : Option Nat) :
    ((KeywordIndex.from_resources rs).lookup q lim).Nodup ∧
      ∀ u ∈ (KeywordIndex.from_resources rs).lookup q lim, u ∈ rs.map Prod.fst := by
  constructor
  · exact nodup_kwScanTokens _ lim (pyTokenize q) [] (by simp)
  · intro u hu
    rcases mem_kwScanTokens _ lim (pyTokenize q) [] u hu with h | ⟨tk, _, hb⟩
    · simp at h
    · exact (goodMap_keyword_index rs tk).2 u hb

theorem provider_lookup_good (rs : List (String × TrainingResource)) (q : String)
    (lim : Option Nat) :
    ((ProviderIndex.from_resources rs).lookup q lim).Nodup ∧
      ∀ u ∈ (ProviderIndex.from_resources rs).lookup q lim, u ∈ rs.map Prod.fst := by
  constructor
  · exact applyLimit_nodup lim _ ((goodMap_provider_index rs (stripLower q)).1)
  · intro u hu
    exact (goodMap_provider_index rs (stripLower q)).2 u (mem_applyLimit hu)

theorem location_lookup_good (rs : List (String × TrainingResource)) (c : String)
    (ct : Option String) (lim : Option Nat) :
    ((LocationIndex.from_resources rs).lookup c ct lim).Nodup ∧
      ∀ u ∈ (LocationIndex.from_resources rs).lookup c ct lim, u ∈ rs.map Prod.fst := by
  obtain ⟨hcm, hccm, _⟩ := locGood_location_index rs
  unfold LocationIndex.lookup
  match ct with
  | none =>
    exact ⟨applyLimit_nodup lim _ ((hcm (stripLower c)).1),
      fun u hu => (hcm (stripLower c)).2 u (mem_applyLimit hu)⟩
  | some city =>
    by_cases hc : city = ""
    · simp only [hc, if_true]
      exact ⟨applyLimit_nodup lim _ ((hcm (stripLower c)).1),
        fun u hu => (hcm (stripLower c)).2 u (mem_applyLimit hu)⟩
    · simp only [hc, if_false]
      exact ⟨applyLimit_nodup lim _ ((hccm (stripLower c, stripLower city)).1),
        fun u hu => (hccm (stripLower c, stripLower city)).2 u (mem_applyLimit hu)⟩

theorem date_lookup_good (rs : List (String × TrainingResource)) (sb eb : Option Int)
    (lim : Option Nat) :
    ((DateIndex.from_resources rs).lookup sb eb lim).Nodup ∧
      ∀ u ∈ (DateIndex.from_resources rs).lookup sb eb lim, u ∈ rs.map Prod.fst := by
  constructor
  · exact nodup_dateScan sb eb lim _ [] (by simp)
  · intro u hu
    rcases mem_dateScan sb eb lim _ [] u hu with h | ⟨s, hs, rfl⟩
    · simp at h
    · rcases (mem_schedules_from_resources rs s).mp hs with ⟨p, hp, _, _, sd, _, rfl⟩
      exact List.mem_map_of_mem Prod.fst hp

theorem topic_lookup_good (rs : List (String × TrainingResource)) (q : String)
    (lim : Option Nat) :
    ((TopicIndex.from_resources rs).lookup q lim).Nodup ∧
      ∀ u ∈ (TopicIndex.from_resources rs).lookup q lim, u ∈ rs.map Prod.fst := by
  constructor
  · exact applyLimit_nodup lim _ ((goodMap_topic_index rs (stripLower q)).1)
  · intro u hu
    exact (goodMap_topic_index rs (stripLower q)).2 u (mem_applyLimit hu)

/-- C10: on any store `load_training_data` returns, every lookup of every
index — any query, any bounds, any optional limit — yields a duplicate-free
sequence whose every identifier is a key of the store's `resources_by_uri`
map. -/
theorem lookups_nodup_and_known :
    ∀ (sp : List (String × Option (List TrainingResource))) (st : TrainingDataStore),
      load_training_data sp = Except.ok st →
      ∀ (q pn c t : String) (ct : Option String) (sb eb : Option Int) (lim : Option Nat),
        ((st.keyword_index.lookup q lim).Nodup ∧
          ∀ u ∈ st.keyword_index.lookup q lim, u ∈ st.resources_by_uri.map Prod.fst) ∧
        ((st.provider_index.lookup pn lim).Nodup ∧
          ∀ u ∈ st.provider_index.lookup pn lim, u ∈ st.resources_by_uri.map Prod.fst) ∧
        ((st.location_index.lookup c ct lim).Nodup ∧
          ∀ u ∈ st.location_index.lookup c ct lim, u ∈ st.resources_by_uri.map Prod.fst) ∧
        ((st.date_index.lookup sb eb lim).Nodup ∧
          ∀ u ∈ st.date_index.lookup sb eb lim, u ∈ st.resources_by_uri.map Prod.fst) ∧
        ((st.topic_index.lookup t lim).Nodup ∧
          ∀ u ∈ st.topic_index.lookup t lim, u ∈ st.resources_by_uri.map Prod.fst) := by
  intro sp st hok
  unfold load_training_data at hok
  cases hr : loadSources ([], [], []) sp with
  | error e =>
    rw [hr] at hok
    exact absurd hok (by simp)
  | ok acc =>
    obtain ⟨rm, counts, graphs⟩ := acc
    rw [hr] at hok
    injection hok with hok
    subst hok
    intro q pn c t ct sb eb lim
    exact ⟨keyword_lookup_good rm q lim, provider_lookup_good rm pn lim,
      location_lookup_good rm c ct lim, date_lookup_good rm sb eb lim,
      topic_lookup_good rm t lim⟩

/-- Witness for the C10 theorem on the concrete one-source store. -/
theorem lookups_nodup_and_known_witness :
    (exStore.keyword_index.lookup "alpha" none).Nodup ∧
      ∀ u ∈ exStore.keyword_index.lookup "alpha" none,
        u ∈ exStore.resources_by_uri.map Prod.fst :=
  (lookups_nodup_and_known exLoadInput exStore rfl "alpha" "p" "c" "t" none none none none).1

end DataStore
